import Mathlib

/-!
Verification of the sales-analytics pipeline in `src/app.py`.

The pipeline (lines 50-269 of app.py) is embedded shallowly:

* a pandas row becomes a `RawRow`; `pd.to_datetime(..., dayfirst=True,
  errors="coerce")` and `pd.to_numeric(..., errors="coerce").fillna(0)`
  become total coercion functions over already-classified raw cells
  (`RawDate`, `RawSum`), since which concrete strings pandas can parse is
  library-internal — what matters to the spec is the parsed/unparseable/
  absent trichotomy;
* float amounts are modelled as exact rationals `ℚ` (the spec's properties
  are stated exactly);
* a missing cell (`NaN` in pandas) is `Option.none`;
* a pandas `Timestamp` is a `Date`: a year plus an ordinal within the
  year, ordered lexicographically — `ts.year` is the year projection and
  the total order agrees with chronological order;
* dropping of `NaN` keys by `groupby` and the `NaN`-propagation of
  `.str.lower()`, `isin`, and `between` are reproduced case by case;
* `Series.pct_change()` is embedded with IEEE division semantics made
  explicit as the inductive `GrowthVal` (finite value / +inf / -inf / NaN);
* `sort_values(ascending=False)` is pandas `nargsort`: a stable ascending
  argsort whose indexer is then reversed (numpy's sort is stable on the
  small arrays at issue, where it is insertion sort), embedded as
  `sortDesc = reverse ∘ stable insertion sort`;
* access to a column that the uploaded sheet lacks raises `KeyError` and
  aborts the script; the schema-aware model `Table`/`pipelineRun` returns
  `Except.error` there.
-/

/-- A calendar date: a year and an ordinal day within the year, ordered
lexicographically.  Models a pandas `Timestamp`; `year` is `.dt.year`. -/
structure Date where
  year : Nat
  ord : Nat
deriving DecidableEq

/-- Chronological order on dates (lexicographic on year, then ordinal). -/
def Date.le (a b : Date) : Prop :=
  a.year < b.year ∨ (a.year = b.year ∧ a.ord ≤ b.ord)

instance (a b : Date) : Decidable (Date.le a b) := by
  unfold Date.le; exact inferInstance

theorem Date.le_refl (a : Date) : Date.le a a := Or.inr ⟨rfl, Nat.le_refl _⟩

theorem Date.le_trans {a b c : Date} (h1 : Date.le a b) (h2 : Date.le b c) :
    Date.le a c := by
  rcases h1 with h1 | ⟨e1, o1⟩
  · rcases h2 with h2 | ⟨e2, o2⟩
    · exact Or.inl (Nat.lt_trans h1 h2)
    · exact Or.inl (e2 ▸ h1)
  · rcases h2 with h2 | ⟨e2, o2⟩
    · exact Or.inl (e1 ▸ h2)
    · exact Or.inr ⟨e1.trans e2, Nat.le_trans o1 o2⟩

/-- The raw `start date` cell, classified by what `pd.to_datetime` with
`dayfirst=True, errors="coerce"` does to it: a parseable cell yields a
timestamp, an unparseable one yields `NaT`, an empty cell is `NaN` and
also yields `NaT`. -/
inductive RawDate where
  | parsed (d : Date)
  | unparseable
  | absent
deriving DecidableEq

/-- The raw `Sum` cell, classified by what `pd.to_numeric` with
`errors="coerce"` does to it: numeric text yields its value, non-numeric
text yields `NaN`, an empty cell is `NaN`. -/
inductive RawSum where
  | numeric (q : ℚ)
  | nonNumeric
  | absent
deriving DecidableEq

/-- One row of the uploaded sheet.  `currency` and `source` hold the cell
value of the optional columns when those columns exist (a missing cell is
`none`); whether the columns exist at all is recorded in `Table`. -/
structure RawRow where
  startDate : RawDate
  sum : RawSum
  responsible : Option String
  stage : Option String
  currency : Option String
  source : Option String
deriving DecidableEq

/-- A cleaned record: row after lines 52-58 of app.py. -/
structure Rec where
  startDate : Option Date
  sum : ℚ
  responsible : Option String
  stage : Option String
  currency : Option String
  source : Option String
deriving DecidableEq

/-- `pd.to_datetime(df["start date"], dayfirst=True, errors="coerce")`:
parse failure and absence both coerce to `NaT` (`none`). -/
def coerceDate : RawDate → Option Date
  | .parsed d => some d
  | .unparseable => none
  | .absent => none

/-- `pd.to_numeric(df["Sum"], errors="coerce").fillna(0)`: a non-numeric
or absent cell becomes `NaN` and then `0`. -/
def coerceSum : RawSum → ℚ
  | .numeric q => q
  | .nonNumeric => 0
  | .absent => 0

/-- Lines 52-58 of app.py applied to a single row; the other columns are
not touched. -/
def cleanRow (r : RawRow) : Rec :=
  { startDate := coerceDate r.startDate
    sum := coerceSum r.sum
    responsible := r.responsible
    stage := r.stage
    currency := r.currency
    source := r.source }

/-- The Record Cleaner: lines 52-58 of app.py (column-wise assignments,
one output row per input row). -/
def clean (rows : List RawRow) : List Rec := rows.map cleanRow

/-- A normalized record: cleaned record plus the `Sum_UZS` column. -/
structure NRec where
  startDate : Option Date
  sum : ℚ
  responsible : Option String
  stage : Option String
  currency : Option String
  source : Option String
  sumUZS : ℚ
deriving DecidableEq

/-- `str.lower()`: character-wise lowercasing (the ASCII rule, which is
what Python's `str.lower()` does on the code points a currency code can
contain). -/
def strLower (s : String) : String := ⟨s.data.map Char.toLower⟩

/-- `df["Currency"].str.lower() == "dollar"`: a missing cell propagates
`NaN`, which compares unequal — `np.where` then takes the else branch. -/
def isDollar : Option String → Bool
  | some s => strLower s == "dollar"
  | none => false

/-- Line 65-69 of app.py for one row:
`np.where(currency.lower() == "dollar", Sum * rate, Sum)`. -/
def normalizeRow (rate : ℚ) (r : Rec) : NRec :=
  { startDate := r.startDate
    sum := r.sum
    responsible := r.responsible
    stage := r.stage
    currency := r.currency
    source := r.source
    sumUZS := if isDollar r.currency then r.sum * rate else r.sum }

/-- The Currency Normalizer: lines 65-69 of app.py. -/
def normalizeRecs (rate : ℚ) (rows : List Rec) : List NRec :=
  rows.map (normalizeRow rate)

/-- Lines 76-79 of app.py: `(df["start date"].dt.year >= 2024) &
(df["start date"].dt.year <= 2026)`; `.dt.year` of `NaT` is `NaN`, so
both comparisons are false and the row is dropped. -/
def inYearWindow (r : NRec) : Bool :=
  match r.startDate with
  | some d => decide (2024 ≤ d.year) && decide (d.year ≤ 2026)
  | none => false

/-- The fixed 2024-2026 calendar pre-filter of lines 76-79. -/
def preFilter (rows : List NRec) : List NRec := rows.filter inYearWindow

/-- `Series.isin(values)` for a cell against a list of (non-null) strings:
a missing cell never matches, a present cell matches by membership. -/
def optIn (v : Option String) (allowed : List String) : Bool :=
  match v with
  | some s => decide (s ∈ allowed)
  | none => false

/-- `df["start date"].between(d0, d1)` for one cell: inclusive on both
ends, false on `NaT`. -/
def dateBetween (d0 d1 : Date) (v : Option Date) : Bool :=
  match v with
  | some d => decide (Date.le d0 d) && decide (Date.le d d1)
  | none => false

/-- The row predicate of the `df_f` expression, lines 105-112 of app.py. -/
def keepRow (ra sa : List String) (d0 d1 : Date) (r : NRec) : Bool :=
  optIn r.responsible ra && optIn r.source sa && dateBetween d0 d1 r.startDate

/-- The Filter Engine: the `df_f` expression of lines 105-112. -/
def filterEngine (ra sa : List String) (d0 d1 : Date) (rows : List NRec) :
    List NRec := rows.filter (keepRow ra sa d0 d1)

/-- Sum of a mapped rational weight over a list. -/
def sumW {α : Type} (w : α → ℚ) (l : List α) : ℚ := (l.map w).sum

/-- KPI `df_f['Sum_UZS'].sum()` (line 122). -/
def totalRevenue (rows : List NRec) : ℚ := sumW NRec.sumUZS rows

/-- Sum of `Sum_UZS` over the rows passing a boolean condition, the shape
of `df_f[cond]['Sum_UZS'].sum()`. -/
def sumWhere (p : NRec → Bool) (rows : List NRec) : ℚ :=
  sumW NRec.sumUZS (rows.filter p)

/-- `df_f[df_f['Transaction stage']=='Success']['Sum_UZS'].sum()`
(line 125): `NaN == 'Success'` is false. -/
def successTotal (rows : List NRec) : ℚ :=
  sumWhere (fun r => decide (r.stage = some "Success")) rows

/-- `df_f[df_f['Transaction stage']=='Debtors']['Sum_UZS'].sum()`
(line 129), also the High-Risk bucket total of the risk classifier. -/
def debtorsTotal (rows : List NRec) : ℚ :=
  sumWhere (fun r => decide (r.stage = some "Debtors")) rows

/-- Total of the records the risk classifier labels Normal: every
filtered record whose stage is not exactly `Debtors` (missing stage
compares unequal, hence Normal). -/
def normalTotal (rows : List NRec) : ℚ :=
  sumWhere (fun r => !decide (r.stage = some "Debtors")) rows

/-- Insert one element into a list before the first element the comparator
accepts — the inner step of a stable insertion sort (the behaviour of
numpy's argsort on the small arrays at issue). -/
def insertLe {α : Type} (le : α → α → Bool) (x : α) : List α → List α
  | [] => [x]
  | y :: ys => if le x y then x :: y :: ys else y :: insertLe le x ys

/-- Stable insertion sort by a boolean comparator. -/
def isort {α : Type} (le : α → α → Bool) : List α → List α
  | [] => []
  | x :: xs => insertLe le x (isort le xs)

/-- Comparator of a linear order, for sorting group keys the way pandas
`groupby` lists them (ascending). -/
def ordLe {K : Type} [LinearOrder K] (a b : K) : Bool := decide (a ≤ b)

/-- The distinct non-null keys of a grouped frame, listed ascending:
`df.groupby(key)` sorts its group keys and drops rows whose key is `NaN`. -/
def keysOf {K : Type} [LinearOrder K] [DecidableEq K]
    (key : NRec → Option K) (rows : List NRec) : List K :=
  isort ordLe (rows.filterMap key).dedup

/-- The `Sum_UZS` total of one group: the rows whose key cell equals the
given (non-null) key. -/
def groupTotal {K : Type} [DecidableEq K]
    (key : NRec → Option K) (rows : List NRec) (k : K) : ℚ :=
  sumWhere (fun r => decide (key r = some k)) rows

/-- `df.groupby(key)["Sum_UZS"].sum().reset_index()`: one (key, total)
pair per distinct non-null key, keys ascending. -/
def groupSums {K : Type} [LinearOrder K] [DecidableEq K]
    (key : NRec → Option K) (rows : List NRec) : List (K × ℚ) :=
  (keysOf key rows).map (fun k => (k, groupTotal key rows k))

/-- Ascending stable sort of (key, total) pairs by total — the argsort
half of pandas `nargsort`. -/
def sortAsc {K : Type} (l : List (K × ℚ)) : List (K × ℚ) :=
  isort (fun a b => decide (a.2 ≤ b.2)) l

/-- `sort_values(by="Sum_UZS", ascending=False)`: pandas `nargsort`
computes the ascending argsort and reverses the indexer. -/
def sortDesc {K : Type} (l : List (K × ℚ)) : List (K × ℚ) :=
  (sortAsc l).reverse

/-- The grouping key of `groupby(["Responsible", "Source"])` (line 140):
a row with either cell missing belongs to no group. -/
def respSourceKey (r : NRec) : Option (String ×ₗ String) :=
  match r.responsible, r.source with
  | some a, some b => some (toLex (a, b))
  | _, _ => none

/-- `resp_source_df` (lines 139-144): revenue grouped by
responsible×source, sorted by `Sum_UZS` descending. -/
def respSourceView (rows : List NRec) : List ((String ×ₗ String) × ℚ) :=
  sortDesc (groupSums respSourceKey rows)

/-- The grouping key of `groupby("Transaction stage")` (line 165). -/
def stageKey (r : NRec) : Option String := r.stage

/-- `stage_df` (lines 164-168): revenue grouped by stage. -/
def stageView (rows : List NRec) : List (String × ℚ) :=
  groupSums stageKey rows

/-- The grouping key of `groupby("Responsible")`. -/
def respKey (r : NRec) : Option String := r.responsible

/-- The grouping key of `groupby("Source")`. -/
def sourceKey (r : NRec) : Option String := r.source

/-- `risk_df` (lines 223-229): the Debtors rows grouped by responsible,
sorted by `Sum_UZS` descending. -/
def riskView (rows : List NRec) : List (String × ℚ) :=
  sortDesc (groupSums respKey
    (rows.filter (fun r => decide (r.stage = some "Debtors"))))

/-- The grouping key of `groupby("start date")` (line 187). -/
def dateKey (r : NRec) : Option Date := r.startDate

/-- Lexicographic linear order on `Date`, packaging `Date.le`. -/
instance : LinearOrder Date :=
  LinearOrder.lift' (fun d => toLex (d.year, d.ord))
    (fun a b h => by
      cases a; cases b
      have h2 := toLex.injective h
      simp only [Prod.mk.injEq] at h2
      simp_all)

/-- The daily totals column of `ts` (lines 186-191): revenue summed per
distinct date, dates ascending (`groupby` drops no rows here because the
Filter Engine already removed `NaT` dates). -/
def tsSums (rows : List NRec) : List ℚ :=
  (keysOf dateKey rows).map (groupTotal dateKey rows)

/-- One growth cell, with IEEE float division made explicit:
a finite percentage, `+inf`, `-inf`, or `NaN`. -/
inductive GrowthVal where
  | nan
  | posInf
  | negInf
  | val (q : ℚ)
deriving DecidableEq

/-- `pct_change() * 100` for one step: `(cur / prev - 1) * 100`.  With
`prev = 0` the float division yields `+inf`, `-inf` or `NaN` and the
subsequent arithmetic keeps it. -/
def growthAt (prev cur : ℚ) : GrowthVal :=
  if prev = 0 then
    if 0 < cur then .posInf else if cur < 0 then .negInf else .nan
  else .val ((cur - prev) / prev * 100)

/-- Tail of the growth column: one cell per consecutive pair. -/
def growthTail : ℚ → List ℚ → List GrowthVal
  | _, [] => []
  | prev, cur :: rest => growthAt prev cur :: growthTail cur rest

/-- `ts["Sum_UZS"].pct_change() * 100` (line 193): the first cell is `NaN`
(no prior row), each later cell compares with its predecessor. -/
def growthList : List ℚ → List GrowthVal
  | [] => []
  | x :: xs => .nan :: growthTail x xs

/-- The closed-form ordinary-least-squares fit of
`sklearn.linear_model.LinearRegression` on the single feature
`idx = 0, 1, ..., n-1` (lines 242-248): returns (intercept, slope). -/
def olsFit (ys : List ℚ) : ℚ × ℚ :=
  let n : ℚ := (ys.length : ℚ)
  let xs : List ℚ := (List.range ys.length).map (fun i => (i : ℚ))
  let sx := xs.sum
  let sy := ys.sum
  let sxy := ((xs.zip ys).map (fun p => p.1 * p.2)).sum
  let sxx := (xs.map (fun x => x * x)).sum
  let b := (n * sxy - sx * sy) / (n * sxx - sx * sx)
  ((sy - b * sx) / n, b)

/-- `model.predict` at one index: intercept + slope · index. -/
def predictAt (fit : ℚ × ℚ) (x : ℚ) : ℚ := fit.1 + fit.2 * x

/-- The forecast block (lines 241-256): if the series has at least 3
points, predict at indices `n, n+1, ..., n+13` and pair each prediction
with its day offset `1..14`; otherwise no forecast is produced. -/
def forecast (ys : List ℚ) : List (Nat × ℚ) :=
  if 3 ≤ ys.length then
    (List.range 14).map
      (fun k => (k + 1, predictAt (olsFit ys) ((ys.length + k : Nat) : ℚ)))
  else []

/-- The uploaded sheet: which optional columns exist, plus the rows.
The required columns (`start date`, `Sum`, `Responsible`,
`Transaction stage`) are always present; `currency`/`source` cells are
meaningful only when the corresponding column exists. -/
structure Table where
  hasCurrency : Bool
  hasSource : Bool
  rows : List RawRow

/-- The multiselect options of lines 88-98:
`sorted(df[col].dropna().unique())` — only non-missing values are ever
offered. -/
def optionsOf (col : NRec → Option String) (rows : List NRec) :
    List String :=
  isort ordLe (rows.filterMap col).dedup

/-- The script of app.py run on an uploaded sheet, up to the filtered
frame `df_f` every later view derives from.  Accessing the `Currency`
column (line 66) or the `Source` column (line 96) when the sheet lacks it
raises `KeyError` and aborts the script, modelled as `Except.error`. -/
def pipelineRun (t : Table) (rate : ℚ) (ra sa : List String)
    (d0 d1 : Date) : Except String (List NRec) :=
  let cleaned := clean t.rows
  if t.hasCurrency = false then Except.error "KeyError: Currency"
  else
    let pre := preFilter (normalizeRecs rate cleaned)
    if t.hasSource = false then Except.error "KeyError: Source"
    else Except.ok (filterEngine ra sa d0 d1 pre)

theorem insertLe_perm {α : Type} (le : α → α → Bool) (x : α) (l : List α) :
    List.Perm (insertLe le x l) (x :: l) := by
  induction l with
  | nil => exact List.Perm.refl _
  | cons y ys ih =>
    by_cases h : le x y
    · simp [insertLe, h]
    · simp only [insertLe, h, if_neg, Bool.not_eq_true]
      exact List.Perm.trans (List.Perm.cons y ih) (List.Perm.swap x y ys)

theorem isort_perm {α : Type} (le : α → α → Bool) (l : List α) :
    List.Perm (isort le l) l := by
  induction l with
  | nil => exact List.Perm.refl _
  | cons x xs ih =>
    exact List.Perm.trans (insertLe_perm le x (isort le xs)) (List.Perm.cons x ih)

theorem mem_isort {α : Type} {le : α → α → Bool} {l : List α} {a : α} :
    a ∈ isort le l ↔ a ∈ l := (isort_perm le l).mem_iff

theorem isort_nodup {α : Type} {le : α → α → Bool} {l : List α}
    (h : l.Nodup) : (isort le l).Nodup := ((isort_perm le l).nodup_iff).mpr h

theorem insertLe_pairwise_le {α : Type} (le : α → α → Bool) (leP : α → α → Prop)
    (hle : ∀ a b, le a b = true → leP a b)
    (hnle : ∀ a b, le a b = false → leP b a)
    (htr : ∀ a b c, leP a b → leP b c → leP a c)
    (x : α) (l : List α) (h : l.Pairwise leP) :
    (insertLe le x l).Pairwise leP := by
  induction l with
  | nil => simp [insertLe]
  | cons y ys ih =>
    rcases List.pairwise_cons.mp h with ⟨hy, hys⟩
    by_cases hxy : le x y
    · simp only [insertLe, hxy, if_pos]
      refine List.pairwise_cons.mpr ⟨?_, h⟩
      intro z hz
      rcases List.mem_cons.mp hz with rfl | hz
      · exact hle _ _ hxy
      · exact htr _ _ _ (hle _ _ hxy) (hy z hz)
    · simp only [insertLe, hxy, if_neg, Bool.not_eq_true]
      refine List.pairwise_cons.mpr ⟨?_, ih hys⟩
      intro z hz
      rcases List.mem_cons.mp ((insertLe_perm le x ys).mem_iff.mp hz) with rfl | hz
      · exact hnle _ _ (by simpa using hxy)
      · exact hy z hz

theorem isort_pairwise_le {α : Type} (le : α → α → Bool) (leP : α → α → Prop)
    (hle : ∀ a b, le a b = true → leP a b)
    (hnle : ∀ a b, le a b = false → leP b a)
    (htr : ∀ a b c, leP a b → leP b c → leP a c)
    (l : List α) : (isort le l).Pairwise leP := by
  induction l with
  | nil => simp [isort]
  | cons x xs ih => exact insertLe_pairwise_le le leP hle hnle htr x _ ih

theorem keysOf_pairwise_lt {K : Type} [LinearOrder K] [DecidableEq K]
    (key : NRec → Option K) (rows : List NRec) :
    (keysOf key rows).Pairwise (· < ·) := by
  have hle : (keysOf key rows).Pairwise (· ≤ ·) := by
    refine isort_pairwise_le _ _ ?_ ?_ ?_ _
    · intro a b h; exact of_decide_eq_true h
    · intro a b h; exact le_of_not_le (of_decide_eq_false h)
    · intro a b c h1 h2; exact le_trans h1 h2
  have hnd : (keysOf key rows).Nodup :=
    isort_nodup (List.nodup_dedup _)
  exact (hle.and hnd).imp (fun h => lt_of_le_of_ne h.1 h.2)

/-- A record whose key cell holds one of the listed keys. -/
def keyIn {K : Type} [DecidableEq K] (key : NRec → Option K) (ks : List K)
    (r : NRec) : Bool :=
  match key r with
  | some k => decide (k ∈ ks)
  | none => false

theorem sumWhere_or_disjoint (p q : NRec → Bool) (l : List NRec)
    (h : ∀ r ∈ l, p r = true → q r = false) :
    sumWhere (fun r => p r || q r) l = sumWhere p l + sumWhere q l := by
  induction l with
  | nil => simp [sumWhere, sumW]
  | cons x xs ih =>
    have hx := h x (List.mem_cons_self x xs)
    have ih' := ih (fun r hr => h r (List.mem_cons_of_mem x hr))
    simp only [sumWhere, sumW] at ih' ⊢
    cases hp : p x with
    | true =>
      have hq : q x = false := hx hp
      simp only [List.filter_cons, hp, hq, Bool.true_or, if_pos,
        Bool.false_eq_true, if_neg, not_false_iff, List.map_cons, List.sum_cons]
      rw [ih']; ring
    | false =>
      cases hq : q x with
      | true =>
        simp only [List.filter_cons, hp, hq, Bool.false_or, if_pos,
          Bool.false_eq_true, if_neg, not_false_iff, List.map_cons,
          List.sum_cons]
        rw [ih']; ring
      | false =>
        simp only [List.filter_cons, hp, hq, Bool.or_self,
          Bool.false_eq_true, if_neg, not_false_iff]
        exact ih'

theorem keyIn_cons {K : Type} [DecidableEq K] (key : NRec → Option K)
    (k : K) (ks : List K) (r : NRec) :
    keyIn key (k :: ks) r = (decide (key r = some k) || keyIn key ks r) := by
  unfold keyIn
  cases hk : key r with
  | none => simp
  | some k' =>
    by_cases h : k' = k
    · subst h; simp
    · simp [List.mem_cons, h]

theorem groups_sum_eq_filter {K : Type} [DecidableEq K]
    (key : NRec → Option K) (ks : List K) (l : List NRec) (hnd : ks.Nodup) :
    (ks.map (fun k => groupTotal key l k)).sum = sumWhere (keyIn key ks) l := by
  induction ks with
  | nil =>
    have hemp : l.filter (keyIn key []) = [] := by
      apply List.filter_eq_nil_iff.mpr
      intro a _
      unfold keyIn
      cases key a <;> simp
    simp [sumWhere, sumW, hemp]
  | cons k ks ih =>
    rcases List.nodup_cons.mp hnd with ⟨hk, hnd'⟩
    have hdisj : ∀ r ∈ l, decide (key r = some k) = true → keyIn key ks r = false := by
      intro r _ hr
      have : key r = some k := of_decide_eq_true hr
      unfold keyIn
      rw [this]
      simp [hk]
    have hsplit := sumWhere_or_disjoint (fun r => decide (key r = some k))
      (keyIn key ks) l hdisj
    have hcong : sumWhere (keyIn key (k :: ks)) l
        = sumWhere (fun r => decide (key r = some k) || keyIn key ks r) l := by
      unfold sumWhere
      congr 1
      exact List.filter_congr (fun r _ => keyIn_cons key k ks r)
    rw [List.map_cons, List.sum_cons, ih hnd', hcong, hsplit]
    rfl

theorem groupSums_total {K : Type} [LinearOrder K] [DecidableEq K]
    (key : NRec → Option K) (l : List NRec)
    (hall : ∀ r ∈ l, key r ≠ none) :
    ((groupSums key l).map Prod.snd).sum = totalRevenue l := by
  have hnd : (keysOf key l).Nodup := isort_nodup (List.nodup_dedup _)
  have h1 : ((keysOf key l).map (fun k => groupTotal key l k)).sum
      = sumWhere (keyIn key (keysOf key l)) l :=
    groups_sum_eq_filter key (keysOf key l) l hnd
  have h2 : l.filter (keyIn key (keysOf key l)) = l := by
    apply List.filter_eq_self.mpr
    intro r hr
    cases hk : key r with
    | none => exact absurd hk (hall r hr)
    | some k =>
      unfold keyIn
      rw [hk]
      apply decide_eq_true
      apply mem_isort.mpr
      apply (List.mem_dedup).mpr
      exact List.mem_filterMap.mpr ⟨r, hr, hk⟩
  have h3 : sumWhere (keyIn key (keysOf key l)) l = totalRevenue l := by
    unfold sumWhere
    rw [h2]
    rfl
  unfold groupSums
  rw [List.map_map]
  have hcomp : (Prod.snd ∘ fun k => (k, groupTotal key l k))
      = fun k => groupTotal key l k := rfl
  rw [hcomp, h1, h3]

theorem sumW_filter_mono {α : Type} (w : α → ℚ) (p q : α → Bool) (l : List α)
    (hw : ∀ a ∈ l, 0 ≤ w a) (hpq : ∀ a ∈ l, p a = true → q a = true) :
    sumW w (l.filter p) ≤ sumW w (l.filter q) := by
  induction l with
  | nil => simp [sumW]
  | cons x xs ih =>
    have hwx := hw x (List.mem_cons_self x xs)
    have ih' := ih (fun a ha => hw a (List.mem_cons_of_mem x ha))
      (fun a ha => hpq a (List.mem_cons_of_mem x ha))
    simp only [sumW] at ih' ⊢
    cases hp : p x with
    | true =>
      have hq : q x = true := hpq x (List.mem_cons_self x xs) hp
      simp only [List.filter_cons, hp, hq, if_pos, List.map_cons, List.sum_cons]
      linarith
    | false =>
      cases hq : q x with
      | true =>
        simp only [List.filter_cons, hp, hq, if_pos, Bool.false_eq_true,
          if_neg, not_false_iff, List.map_cons, List.sum_cons]
        linarith
      | false =>
        simp only [List.filter_cons, hp, hq, Bool.false_eq_true, if_neg,
          not_false_iff]
        exact ih'

theorem sortAsc_sorted {K : Type} (l : List (K × ℚ)) :
    (sortAsc l).Pairwise (fun a b => a.2 ≤ b.2) := by
  refine isort_pairwise_le _ _ ?_ ?_ ?_ l
  · intro a b h; exact of_decide_eq_true h
  · intro a b h; exact le_of_not_le (of_decide_eq_false h)
  · intro a b c h1 h2; exact le_trans h1 h2

theorem insertLe_pairwiseR {K : Type} [LinearOrder K]
    (x : K × ℚ) (l : List (K × ℚ))
    (hs : l.Pairwise (fun a b => a.2 ≤ b.2))
    (hR : l.Pairwise (fun a b => a.2 < b.2 ∨ (a.2 = b.2 ∧ a.1 < b.1)))
    (hx : ∀ y ∈ l, x.2 = y.2 → x.1 < y.1) :
    (insertLe (fun a b => decide (a.2 ≤ b.2)) x l).Pairwise
      (fun a b => a.2 < b.2 ∨ (a.2 = b.2 ∧ a.1 < b.1)) := by
  induction l with
  | nil => simp [insertLe]
  | cons y ys ih =>
    rcases List.pairwise_cons.mp hs with ⟨hsy, hsys⟩
    rcases List.pairwise_cons.mp hR with ⟨hRy, hRys⟩
    by_cases hxy : x.2 ≤ y.2
    · simp only [insertLe, decide_eq_true hxy, if_pos]
      refine List.pairwise_cons.mpr ⟨?_, hR⟩
      intro z hz
      have hxz : x.2 ≤ z.2 := by
        rcases List.mem_cons.mp hz with rfl | hz
        · exact hxy
        · exact le_trans hxy (hsy z hz)
      rcases lt_or_eq_of_le hxz with h | h
      · exact Or.inl h
      · exact Or.inr ⟨h, hx z hz h⟩
    · have hyx : y.2 < x.2 := not_le.mp hxy
      simp only [insertLe, decide_eq_false hxy, Bool.false_eq_true, if_neg,
        not_false_iff]
      refine List.pairwise_cons.mpr
        ⟨?_, ih hsys hRys (fun z hz h => hx z (List.mem_cons_of_mem y hz) h)⟩
      intro z hz
      rcases List.mem_cons.mp
          ((insertLe_perm (fun a b => decide (a.2 ≤ b.2)) x ys).mem_iff.mp hz)
        with rfl | hz
      · exact Or.inl hyx
      · exact hRy z hz

theorem sortAsc_pairwiseR {K : Type} [LinearOrder K] (l : List (K × ℚ))
    (h : l.Pairwise (fun a b => a.1 < b.1)) :
    (sortAsc l).Pairwise (fun a b => a.2 < b.2 ∨ (a.2 = b.2 ∧ a.1 < b.1)) := by
  induction l with
  | nil => simp [sortAsc, isort]
  | cons x xs ih =>
    rcases List.pairwise_cons.mp h with ⟨hx, hxs⟩
    simp only [sortAsc, isort] at ih ⊢
    refine insertLe_pairwiseR x _ (sortAsc_sorted xs) (ih hxs) ?_
    intro y hy _
    exact hx y (mem_isort.mp hy)

theorem sortDesc_pairwise {K : Type} [LinearOrder K] (l : List (K × ℚ))
    (h : l.Pairwise (fun a b => a.1 < b.1)) :
    (sortDesc l).Pairwise (fun a b => b.2 < a.2 ∨ (b.2 = a.2 ∧ b.1 < a.1)) := by
  unfold sortDesc
  rw [List.pairwise_reverse]
  exact sortAsc_pairwiseR l h

theorem groupSums_keys_lt {K : Type} [LinearOrder K] [DecidableEq K]
    (key : NRec → Option K) (rows : List NRec) :
    (groupSums key rows).Pairwise (fun a b => a.1 < b.1) := by
  unfold groupSums
  rw [List.pairwise_map]
  exact keysOf_pairwise_lt key rows

theorem sumWhere_not_add (p : NRec → Bool) (l : List NRec) :
    sumWhere p l + sumWhere (fun r => !p r) l = totalRevenue l := by
  induction l with
  | nil => simp [sumWhere, sumW, totalRevenue]
  | cons x xs ih =>
    simp only [sumWhere, sumW, totalRevenue] at ih ⊢
    cases hp : p x <;>
      simp only [List.filter_cons, hp, Bool.not_true, Bool.not_false, if_pos,
        Bool.false_eq_true, if_neg, not_false_iff, List.map_cons,
        List.sum_cons] <;> linarith

theorem mem_filterEngine {ra sa : List String} {d0 d1 : Date}
    {rows : List NRec} {r : NRec} :
    r ∈ filterEngine ra sa d0 d1 rows ↔
      r ∈ rows ∧ keepRow ra sa d0 d1 r = true := by
  unfold filterEngine
  exact List.mem_filter

theorem keepRow_parts {ra sa : List String} {d0 d1 : Date} {r : NRec}
    (h : keepRow ra sa d0 d1 r = true) :
    optIn r.responsible ra = true ∧ optIn r.source sa = true ∧
      dateBetween d0 d1 r.startDate = true := by
  unfold keepRow at h
  simp only [Bool.and_eq_true] at h
  exact ⟨h.1.1, h.1.2, h.2⟩

theorem optIn_some {v : Option String} {allowed : List String}
    (h : optIn v allowed = true) : ∃ s, v = some s ∧ s ∈ allowed := by
  unfold optIn at h
  cases hv : v with
  | none => rw [hv] at h; exact absurd h (by simp)
  | some s => rw [hv] at h; exact ⟨s, rfl, of_decide_eq_true h⟩

theorem dateBetween_some {d0 d1 : Date} {v : Option Date}
    (h : dateBetween d0 d1 v = true) :
    ∃ d, v = some d ∧ Date.le d0 d ∧ Date.le d d1 := by
  unfold dateBetween at h
  cases hv : v with
  | none => rw [hv] at h; exact absurd h (by simp)
  | some d =>
    rw [hv] at h
    simp only [Bool.and_eq_true, decide_eq_true_eq] at h
    exact ⟨d, rfl, h.1, h.2⟩

theorem keepRow_mono {ra ra' sa : List String} {d0 d0' d1 d1' : Date}
    (hra : ∀ s ∈ ra, s ∈ ra') (hd0 : Date.le d0' d0) (hd1 : Date.le d1 d1')
    (r : NRec) (h : keepRow ra sa d0 d1 r = true) :
    keepRow ra' sa d0' d1' r = true := by
  rcases keepRow_parts h with ⟨h1, h2, h3⟩
  rcases optIn_some h1 with ⟨s, hs, hmem⟩
  rcases dateBetween_some h3 with ⟨d, hd, hge, hle⟩
  unfold keepRow optIn dateBetween
  rw [hs, hd]
  simp only [Bool.and_eq_true, decide_eq_true_eq]
  refine ⟨⟨hra s hmem, ?_⟩, Date.le_trans hd0 hge, Date.le_trans hle hd1⟩
  rcases optIn_some h2 with ⟨t, ht, htmem⟩
  rw [ht] at h2 ⊢
  exact h2

theorem growthTail_get {l : List ℚ} :
    ∀ (prev : ℚ) (i : Nat) (p c : ℚ), (prev :: l)[i]? = some p →
      l[i]? = some c → (growthTail prev l)[i]? = some (growthAt p c) := by
  induction l with
  | nil => intro prev i p c _ hc; simp at hc
  | cons cur rest ih =>
    intro prev i p c hp hc
    cases i with
    | zero =>
      simp only [List.getElem?_cons_zero, Option.some.injEq] at hp hc
      subst hp; subst hc
      simp [growthTail]
    | succ j =>
      simp only [List.getElem?_cons_succ] at hp hc
      simp only [growthTail, List.getElem?_cons_succ]
      exact ih cur j p c hp hc

theorem growthList_get {sums : List ℚ} {i : Nat} {prev cur : ℚ}
    (hp : sums[i]? = some prev) (hc : sums[i + 1]? = some cur) :
    (growthList sums)[i + 1]? = some (growthAt prev cur) := by
  cases sums with
  | nil => simp at hp
  | cons x xs =>
    simp only [List.getElem?_cons_succ] at hc
    simp only [growthList, List.getElem?_cons_succ]
    exact growthTail_get x i prev cur hp hc

/-- C2: on the series [10, 20, 30] (day indices 0, 1, 2) the
ordinary-least-squares fit of the forecast block is exactly intercept 10,
slope 10; for every series meeting the forecast threshold (at least 3
points) the block produces exactly 14 forecast points, the k-th carrying
day offset k+1 and the prediction at index N+k (N = number of observed
points); on [10, 20, 30] the offset-1 forecast (index 3) is 40. -/
theorem C2_forecast_ols :
    olsFit [10, 20, 30] = (10, 10) ∧
    (forecast [10, 20, 30])[0]? = some (1, 40) ∧
    ∀ ys : List ℚ, 3 ≤ ys.length →
      (forecast ys).length = 14 ∧
      ∀ k : Nat, k < 14 →
        (forecast ys)[k]? =
          some (k + 1, predictAt (olsFit ys) ((ys.length + k : Nat) : ℚ)) := by
  refine ⟨?_, ?_, ?_⟩
  · norm_num [olsFit, List.range_succ]
  · norm_num [forecast, List.range_succ, predictAt, olsFit]
  · intro ys h
    unfold forecast
    rw [if_pos h]
    refine ⟨by simp, ?_⟩
    intro k hk
    rw [List.getElem?_map, List.getElem?_range hk]
    rfl

theorem C2_forecast_ols_witness :
    3 ≤ ([10, 20, 30] : List ℚ).length ∧
    (forecast [10, 20, 30]).length = 14 ∧
    (forecast [10, 20, 30])[0]? =
      some (0 + 1, predictAt (olsFit [10, 20, 30])
        ((([10, 20, 30] : List ℚ).length + 0 : Nat) : ℚ)) :=
  ⟨by norm_num,
   (C2_forecast_ols.2.2 [10, 20, 30] (by norm_num)).1,
   (C2_forecast_ols.2.2 [10, 20, 30] (by norm_num)).2 0 (by norm_num)⟩

/-- C3 counterexample: for the daily-sum series [0, 5] the growth cell
after the zero day is `+inf` — the float division artifact of
`pct_change` — not the NaN marker that stands for "undefined" in the
growth column, refuting the claim that a zero predecessor always yields
an explicit undefined marker. -/
theorem C3_counterexample :
    ¬ (growthList [0, 5])[1]? = some GrowthVal.nan := by
  have h : (growthList [0, 5])[1]? = some GrowthVal.posInf := by
    norm_num [growthList, growthTail, growthAt]
  rw [h]
  decide

/-- C3 (amended): the first growth cell of any nonempty series is the NaN
marker (in particular never the number 0); on [100, 150, 150] the growth
column is [NaN, 50, 0]; every later cell compares with its predecessor via
`pct_change`, and when the preceding sum is 0 that cell is `+inf` (current
sum positive), `-inf` (negative) or NaN (zero) — the raw float division
result, not a distinguished undefined marker. -/
theorem C3_growth :
    (∀ (x : ℚ) (rest : List ℚ),
      (growthList (x :: rest))[0]? = some GrowthVal.nan) ∧
    growthList [100, 150, 150] =
      [GrowthVal.nan, GrowthVal.val 50, GrowthVal.val 0] ∧
    (∀ (sums : List ℚ) (i : Nat) (prev cur : ℚ),
      sums[i]? = some prev → sums[i + 1]? = some cur →
        (growthList sums)[i + 1]? = some (growthAt prev cur)) ∧
    (∀ cur : ℚ, 0 < cur → growthAt 0 cur = GrowthVal.posInf) ∧
    (∀ cur : ℚ, cur < 0 → growthAt 0 cur = GrowthVal.negInf) ∧
    growthAt 0 0 = GrowthVal.nan ∧
    (∀ prev cur : ℚ, prev ≠ 0 →
      growthAt prev cur = GrowthVal.val ((cur - prev) / prev * 100)) := by
  refine ⟨?_, ?_, ?_, ?_, ?_, ?_, ?_⟩
  · intro x rest; simp [growthList]
  · norm_num [growthList, growthTail, growthAt]
  · intro sums i prev cur hp hc; exact growthList_get hp hc
  · intro cur h; simp [growthAt, h, not_lt_of_lt h]
  · intro cur h; simp [growthAt, h, not_lt_of_lt h, asymm h]
  · simp [growthAt]
  · intro prev cur h; simp [growthAt, h]

theorem C3_growth_witness :
    (growthList [(7 : ℚ), 14])[0]? = some GrowthVal.nan ∧
    ([(0 : ℚ), 5] : List ℚ)[0]? = some 0 ∧
    (growthList [(0 : ℚ), 5])[0 + 1]? = some (growthAt 0 5) ∧
    growthAt 0 5 = GrowthVal.posInf ∧
    growthAt 0 (-5) = GrowthVal.negInf ∧
    growthAt 100 150 = GrowthVal.val ((150 - 100) / 100 * 100) :=
  ⟨C3_growth.1 7 [14],
   by norm_num,
   C3_growth.2.2.1 [0, 5] 0 0 5 (by norm_num) (by norm_num),
   C3_growth.2.2.2.1 5 (by norm_num),
   C3_growth.2.2.2.2.1 (-5) (by norm_num),
   C3_growth.2.2.2.2.2.2 100 150 (by norm_num)⟩

/-- A record of 100 in the foreign currency (spelled `Dollar`, exercising
case-insensitive matching). -/
def recForeign : Rec := ⟨none, 100, none, none, some "Dollar", none⟩

/-- A record of 50 with no currency cell (already base currency). -/
def recBase : Rec := ⟨none, 50, none, none, none, none⟩

/-- C6: the Currency Normalizer multiplies by the rate exactly when the
currency cell lowercases to the foreign code `dollar`, passes the amount
through otherwise (in particular when the cell is missing), distributes
over concatenation of record sets, and its total commutes with
aggregation; on amounts [100 foreign, 50 base] with rate 10 it yields
[1000, 50]. -/
theorem C6_normalizer :
    (∀ (rate : ℚ) (a b : List Rec),
      normalizeRecs rate (a ++ b) =
        normalizeRecs rate a ++ normalizeRecs rate b) ∧
    (∀ (rate : ℚ) (a b : List Rec),
      totalRevenue (normalizeRecs rate (a ++ b)) =
        totalRevenue (normalizeRecs rate a) +
          totalRevenue (normalizeRecs rate b)) ∧
    (∀ (rate : ℚ) (r : Rec) (s : String), r.currency = some s →
      strLower s = "dollar" → (normalizeRow rate r).sumUZS = r.sum * rate) ∧
    (∀ (rate : ℚ) (r : Rec) (s : String), r.currency = some s →
      strLower s ≠ "dollar" → (normalizeRow rate r).sumUZS = r.sum) ∧
    (∀ (rate : ℚ) (r : Rec), r.currency = none →
      (normalizeRow rate r).sumUZS = r.sum) ∧
    (normalizeRecs 10 [recForeign, recBase]).map NRec.sumUZS = [1000, 50] := by
  have hD : isDollar (some "Dollar") = true := by decide
  refine ⟨?_, ?_, ?_, ?_, ?_, ?_⟩
  · intro rate a b; simp [normalizeRecs]
  · intro rate a b
    simp [normalizeRecs, totalRevenue, sumW]
  · intro rate r s hc hl
    simp [normalizeRow, isDollar, hc, hl]
  · intro rate r s hc hl
    simp [normalizeRow, isDollar, hc, hl]
  · intro rate r hc
    simp [normalizeRow, isDollar, hc]
  · have h1 : (normalizeRow 10 recForeign).sumUZS = 1000 := by
      simp only [normalizeRow, recForeign, hD, if_pos]
      norm_num
    have h2 : (normalizeRow 10 recBase).sumUZS = 50 := by
      simp [normalizeRow, recBase, isDollar]
    simp [normalizeRecs, h1, h2]

theorem C6_normalizer_witness :
    (recForeign.currency = some "Dollar" ∧ strLower "Dollar" = "dollar" ∧
      (normalizeRow 10 recForeign).sumUZS = recForeign.sum * 10) ∧
    (recBase.currency = none ∧ (normalizeRow 10 recBase).sumUZS = recBase.sum) :=
  ⟨⟨rfl, by decide,
    C6_normalizer.2.2.1 10 recForeign "Dollar" rfl (by decide)⟩,
   ⟨rfl, C6_normalizer.2.2.2.2.1 10 recBase rfl⟩⟩

/-- C7: the Record Cleaner outputs one record per input row; a parse
failure or an absent `start date` cell becomes the `NaT` marker (`none`),
never some default date, while a parsed cell keeps its date; a
non-numeric or absent `Sum` cell becomes 0 (a number, never a missing
marker — the field's type is ℚ), while a numeric cell keeps its value;
the other fields pass through unmodified. -/
theorem C7_cleaner :
    (∀ rows : List RawRow, (clean rows).length = rows.length) ∧
    (∀ (r : RawRow) (d : Date), r.startDate = .parsed d →
      (cleanRow r).startDate = some d) ∧
    (∀ r : RawRow, r.startDate = .unparseable →
      (cleanRow r).startDate = none) ∧
    (∀ r : RawRow, r.startDate = .absent → (cleanRow r).startDate = none) ∧
    (∀ (r : RawRow) (q : ℚ), r.sum = .numeric q → (cleanRow r).sum = q) ∧
    (∀ r : RawRow, r.sum = .nonNumeric → (cleanRow r).sum = 0) ∧
    (∀ r : RawRow, r.sum = .absent → (cleanRow r).sum = 0) ∧
    (∀ r : RawRow, (cleanRow r).responsible = r.responsible ∧
      (cleanRow r).stage = r.stage ∧ (cleanRow r).currency = r.currency ∧
      (cleanRow r).source = r.source) := by
  refine ⟨?_, ?_, ?_, ?_, ?_, ?_, ?_, ?_⟩
  · intro rows; simp [clean]
  · intro r d h; simp [cleanRow, coerceDate, h]
  · intro r h; simp [cleanRow, coerceDate, h]
  · intro r h; simp [cleanRow, coerceDate, h]
  · intro r q h; simp [cleanRow, coerceSum, h]
  · intro r h; simp [cleanRow, coerceSum, h]
  · intro r h; simp [cleanRow, coerceSum, h]
  · intro r; exact ⟨rfl, rfl, rfl, rfl⟩

/-- A row whose date cell cannot be parsed and whose `Sum` cell is not
numeric, for exercising the cleaner's coercions. -/
def dirtyRow : RawRow := ⟨.unparseable, .nonNumeric, some "A", none, none, none⟩

theorem C7_cleaner_witness :
    (clean [dirtyRow]).length = 1 ∧
    dirtyRow.startDate = .unparseable ∧ (cleanRow dirtyRow).startDate = none ∧
    dirtyRow.sum = .nonNumeric ∧ (cleanRow dirtyRow).sum = 0 ∧
    (cleanRow dirtyRow).responsible = dirtyRow.responsible :=
  ⟨C7_cleaner.1 [dirtyRow], rfl, C7_cleaner.2.2.1 dirtyRow rfl, rfl,
   C7_cleaner.2.2.2.2.2.1 dirtyRow rfl, (C7_cleaner.2.2.2.2.2.2.2 dirtyRow).1⟩

/-- C10: a record whose `Responsible` (or `Source`) cell is missing never
passes the Filter Engine — `isin` never matches a missing cell against
the offered options, which are drawn from `dropna().unique()` and hence
are all actual non-missing values — so such a row is excluded from the
filtered set (and thereby from every view derived from it) no matter
which options the user selects. -/
theorem C10_missing_excluded (rows : List NRec) (ra sa : List String)
    (d0 d1 : Date) (r : NRec)
    (hmiss : r.responsible = none ∨ r.source = none) :
    r ∉ filterEngine ra sa d0 d1 rows ∧
    (∀ s ∈ optionsOf respKey rows, ∃ x ∈ rows, x.responsible = some s) ∧
    (∀ s ∈ optionsOf sourceKey rows, ∃ x ∈ rows, x.source = some s) := by
  refine ⟨?_, ?_, ?_⟩
  · intro hmem
    rcases keepRow_parts (mem_filterEngine.mp hmem).2 with ⟨h1, h2, _⟩
    rcases hmiss with h | h
    · rw [h] at h1; exact absurd h1 (by simp [optIn])
    · rw [h] at h2; exact absurd h2 (by simp [optIn])
  · intro s hs
    exact List.mem_filterMap.mp (List.mem_dedup.mp (mem_isort.mp hs))
  · intro s hs
    exact List.mem_filterMap.mp (List.mem_dedup.mp (mem_isort.mp hs))

/-- A record with a missing `Responsible` cell. -/
def noRespRec : NRec := ⟨some ⟨2024, 5⟩, 3, none, some "Success", none, some "S", 3⟩

theorem C10_missing_excluded_witness :
    noRespRec ∉ filterEngine ["A"] ["S"] ⟨2024, 1⟩ ⟨2026, 366⟩ [noRespRec] :=
  (C10_missing_excluded [noRespRec] ["A"] ["S"] ⟨2024, 1⟩ ⟨2026, 366⟩ noRespRec
    (Or.inl rfl)).1

/-- C4 counterexample: a sheet lacking the `Source` column, holding one
record that meets every keep-condition the claim lists (responsible `A`
is allowed, the date is known and inside the range, and the source
dimension is absent).  The claim says the record is kept; the script
instead aborts with a `KeyError` when it reads `df["Source"]` at line 96,
so no filtered set is produced at all and the record is not kept. -/
theorem C4_counterexample :
    pipelineRun
        ⟨true, false,
          [⟨.parsed ⟨2024, 5⟩, .numeric 1, some "A", some "Success", none, none⟩]⟩
        1 ["A"] [] ⟨2024, 1⟩ ⟨2026, 366⟩ = Except.error "KeyError: Source" ∧
    optIn (some "A") ["A"] = true ∧
    dateBetween ⟨2024, 1⟩ ⟨2026, 366⟩ (some ⟨2024, 5⟩) = true := by
  refine ⟨rfl, by decide, by decide⟩

/-- C4 (amended): when the sheet has a `Source` column, the Filter Engine
keeps a record iff its responsible cell holds an allowed value, its
source cell holds an allowed value, and its date cell holds a date inside
the inclusive range (in particular the date is known); an empty allowed
set for either dimension yields the empty result, never the unfiltered
set.  (When the `Source` column is absent the script aborts instead of
treating the source filter as satisfied — see the counterexample.) -/
theorem C4_filter_iff (ra sa : List String) (d0 d1 : Date)
    (rows : List NRec) (r : NRec) :
    (r ∈ filterEngine ra sa d0 d1 rows ↔
      r ∈ rows ∧ (∃ v, r.responsible = some v ∧ v ∈ ra) ∧
        (∃ s, r.source = some s ∧ s ∈ sa) ∧
        (∃ d, r.startDate = some d ∧ Date.le d0 d ∧ Date.le d d1)) ∧
    (ra = [] → filterEngine ra sa d0 d1 rows = []) ∧
    (sa = [] → filterEngine ra sa d0 d1 rows = []) := by
  refine ⟨?_, ?_, ?_⟩
  · constructor
    · intro hmem
      rcases mem_filterEngine.mp hmem with ⟨hr, hkeep⟩
      rcases keepRow_parts hkeep with ⟨h1, h2, h3⟩
      exact ⟨hr, optIn_some h1, optIn_some h2, dateBetween_some h3⟩
    · rintro ⟨hr, ⟨v, hv, hva⟩, ⟨s, hs, hsa⟩, ⟨d, hd, hd0, hd1⟩⟩
      refine mem_filterEngine.mpr ⟨hr, ?_⟩
      unfold keepRow optIn dateBetween
      rw [hv, hs, hd]
      simp [hva, hsa, hd0, hd1]
  · intro h
    subst h
    apply List.filter_eq_nil_iff.mpr
    intro r _
    unfold keepRow optIn
    cases r.responsible <;> simp
  · intro h
    subst h
    apply List.filter_eq_nil_iff.mpr
    intro r _
    unfold keepRow optIn
    cases hrv : r.responsible <;> cases hsv : r.source <;> simp

theorem C4_filter_iff_witness :
    filterEngine [] ["S"] ⟨2024, 1⟩ ⟨2026, 366⟩ [noRespRec] = [] :=
  (C4_filter_iff [] ["S"] ⟨2024, 1⟩ ⟨2026, 366⟩ [noRespRec] noRespRec).2.1 rfl

/-- The sheet row behind the C5 counterexample: a valid 2024 deal whose
`Sum` is the negative number -5 (amounts are signed). -/
def negRow : RawRow :=
  ⟨.parsed ⟨2024, 5⟩, .numeric (-5), some "A", some "Success", none, some "S"⟩

/-- C5 counterexample: widening the allowed-responsible set from {} to
{A} over a dataset holding one negative-amount deal strictly decreases
the KPI total revenue (from 0 to -5), refuting unconditional filter
monotonicity. -/
theorem C5_counterexample :
    totalRevenue (filterEngine ["A"] ["S"] ⟨2024, 1⟩ ⟨2026, 366⟩
        (preFilter (normalizeRecs 1 (clean [negRow])))) <
      totalRevenue (filterEngine [] ["S"] ⟨2024, 1⟩ ⟨2026, 366⟩
        (preFilter (normalizeRecs 1 (clean [negRow])))) := by
  have h1 : preFilter (normalizeRecs 1 (clean [negRow])) =
      [⟨some ⟨2024, 5⟩, -5, some "A", some "Success", none, some "S", -5⟩] := by
    simp [preFilter, normalizeRecs, normalizeRow, clean, cleanRow, coerceDate,
      coerceSum, isDollar, inYearWindow, negRow]
  rw [h1]
  have h2 : filterEngine ["A"] ["S"] ⟨2024, 1⟩ ⟨2026, 366⟩
      [⟨some ⟨2024, 5⟩, -5, some "A", some "Success", none, some "S", -5⟩] =
      [⟨some ⟨2024, 5⟩, -5, some "A", some "Success", none, some "S", -5⟩] := by
    simp [filterEngine, keepRow, optIn, dateBetween, Date.le]
  have h3 : filterEngine [] ["S"] ⟨2024, 1⟩ ⟨2026, 366⟩
      [⟨some ⟨2024, 5⟩, -5, some "A", some "Success", none, some "S", -5⟩] =
      [] := by
    simp [filterEngine, keepRow, optIn]
  rw [h2, h3]
  norm_num [totalRevenue, sumW]

/-- C5 (amended): when every record's `Sum_UZS` is nonnegative, widening
the allowed-responsible set or the inclusive date range never decreases
the KPI total revenue nor any `Sum_UZS` aggregate computed over the
filtered set (every group total and stage-restricted KPI is such a
`sumWhere`); equivalently, narrowing never increases them.  With negative
amounts (which signed `Sum` values permit) this can fail, as the
counterexample shows. -/
theorem C5_monotone (rows : List NRec) (ra ra' sa : List String)
    (d0 d0' d1 d1' : Date)
    (hra : ∀ s ∈ ra, s ∈ ra') (hd0 : Date.le d0' d0) (hd1 : Date.le d1 d1')
    (hnn : ∀ r ∈ rows, 0 ≤ r.sumUZS) :
    totalRevenue (filterEngine ra sa d0 d1 rows) ≤
      totalRevenue (filterEngine ra' sa d0' d1' rows) ∧
    ∀ p : NRec → Bool,
      sumWhere p (filterEngine ra sa d0 d1 rows) ≤
        sumWhere p (filterEngine ra' sa d0' d1' rows) := by
  have hmono : ∀ r ∈ rows, keepRow ra sa d0 d1 r = true →
      keepRow ra' sa d0' d1' r = true :=
    fun r _ h => keepRow_mono hra hd0 hd1 r h
  constructor
  · exact sumW_filter_mono NRec.sumUZS _ _ rows hnn hmono
  · intro p
    unfold sumWhere filterEngine
    rw [List.filter_filter, List.filter_filter]
    refine sumW_filter_mono NRec.sumUZS _ _ rows hnn ?_
    intro r hr h
    rcases Bool.and_eq_true_iff.mp h with ⟨hp, hk⟩
    exact Bool.and_eq_true_iff.mpr ⟨hp, hmono r hr hk⟩

theorem C5_monotone_witness :
    totalRevenue (filterEngine [] ["S"] ⟨2024, 5⟩ ⟨2024, 9⟩ [noRespRec]) ≤
      totalRevenue (filterEngine ["A"] ["S"] ⟨2024, 1⟩ ⟨2026, 366⟩ [noRespRec]) :=
  (C5_monotone [noRespRec] [] ["A"] ["S"] ⟨2024, 5⟩ ⟨2024, 1⟩ ⟨2024, 9⟩
    ⟨2026, 366⟩ (by simp) (by decide) (by decide)
    (by intro r hr; rcases List.mem_singleton.mp hr with rfl; norm_num [noRespRec])).1

/-- C8 counterexample: a sheet lacking the optional `Currency` column.
The claim says the pipeline still runs to completion, treating every
record as base currency; instead the script aborts with a `KeyError`
when line 66 reads `df["Currency"]`, exactly as it would for a required
column. -/
theorem C8_counterexample :
    pipelineRun
        ⟨false, true,
          [⟨.parsed ⟨2024, 5⟩, .numeric 1, some "A", some "Success", none, some "S"⟩]⟩
        1 ["A"] ["S"] ⟨2024, 1⟩ ⟨2026, 366⟩ = Except.error "KeyError: Currency" :=
  rfl

/-- C8 (amended): absence of the `Currency` column (line 66) or of the
`Source` column (line 96) aborts the whole run with a `KeyError`, exactly
like a required column; only a missing currency *value* inside a present
column is tolerated (the record counts as base currency).  With both
columns present the pipeline completes and yields the filtered set. -/
theorem C8_optional_columns (t : Table) (rate : ℚ) (ra sa : List String)
    (d0 d1 : Date) :
    (t.hasCurrency = false →
      pipelineRun t rate ra sa d0 d1 = Except.error "KeyError: Currency") ∧
    (t.hasCurrency = true → t.hasSource = false →
      pipelineRun t rate ra sa d0 d1 = Except.error "KeyError: Source") ∧
    (t.hasCurrency = true → t.hasSource = true →
      pipelineRun t rate ra sa d0 d1 = Except.ok
        (filterEngine ra sa d0 d1 (preFilter (normalizeRecs rate (clean t.rows))))) ∧
    (∀ r : Rec, r.currency = none → (normalizeRow rate r).sumUZS = r.sum) := by
  refine ⟨?_, ?_, ?_, ?_⟩
  · intro h; simp [pipelineRun, h]
  · intro hc hs; simp [pipelineRun, hc, hs]
  · intro hc hs; simp [pipelineRun, hc, hs]
  · intro r h; simp [normalizeRow, isDollar, h]

theorem C8_optional_columns_witness :
    pipelineRun ⟨true, true, [negRow]⟩ 1 ["A"] ["S"] ⟨2024, 1⟩ ⟨2026, 366⟩ =
      Except.ok (filterEngine ["A"] ["S"] ⟨2024, 1⟩ ⟨2026, 366⟩
        (preFilter (normalizeRecs 1 (clean [negRow])))) :=
  (C8_optional_columns ⟨true, true, [negRow]⟩ 1 ["A"] ["S"] ⟨2024, 1⟩
    ⟨2026, 366⟩).2.2.1 rfl rfl

/-- A Debtors deal of 10 owned by responsible `A`. -/
def debtorA : NRec :=
  ⟨some ⟨2024, 5⟩, 10, some "A", some "Debtors", none, some "S", 10⟩

/-- A Debtors deal of 10 owned by responsible `B` — a tie with `A`. -/
def debtorB : NRec :=
  ⟨some ⟨2024, 6⟩, 10, some "B", some "Debtors", none, some "S", 10⟩

/-- C9 counterexample: two debtor groups `A` and `B` with equal totals.
`groupby` lists them ascending (`A` before `B`); `sort_values(ascending=
False)` reverses the stable ascending argsort, so the drill-down shows
`B` before `A` — ties come out in descending key order, refuting the
claim that equal-total groups appear in ascending key order. -/
theorem C9_counterexample :
    ¬ (riskView [debtorA, debtorB]).Pairwise
        (fun a b => a.2 = b.2 → a.1 ≤ b.1) := by
  have heval : riskView [debtorA, debtorB] = [("B", 10), ("A", 10)] := by
    simp [riskView, groupSums, keysOf, groupTotal, sumWhere, sumW, isort,
      insertLe, sortDesc, sortAsc, ordLe, respKey, debtorA, debtorB,
      String.le_iff_toList_le]
  rw [heval]
  intro h
  rcases List.pairwise_cons.mp h with ⟨hhead, _⟩
  have hBA : ("B" : String) ≤ "A" := hhead ("A", 10) (by simp) rfl
  have hnBA : ¬ ("B" : String) ≤ "A" := by
    rw [String.le_iff_toList_le]; decide
  exact hnBA hBA

/-- C9 (amended): in both ranked views (the responsible×source revenue
table and the debtor drill-down by responsible) rows are ordered by
summed `Sum_UZS` strictly descending, and two groups with equal sums
appear in strictly *descending* order of their key — the reverse of the
ascending order `groupby` lists them in, because the descending sort
reverses a stable ascending argsort.  The order is still deterministic. -/
theorem C9_ranked_order (rows : List NRec) :
    (riskView rows).Pairwise
      (fun a b => b.2 < a.2 ∨ (b.2 = a.2 ∧ b.1 < a.1)) ∧
    (respSourceView rows).Pairwise
      (fun a b => b.2 < a.2 ∨ (b.2 = a.2 ∧ b.1 < a.1)) := by
  constructor
  · unfold riskView
    exact sortDesc_pairwise _ (groupSums_keys_lt respKey _)
  · unfold respSourceView
    exact sortDesc_pairwise _ (groupSums_keys_lt respSourceKey rows)

/-- `df_f` as the script computes it when both optional columns are
present: clean (lines 52-58), normalize (65-69), 2024-2026 pre-filter
(76-79), then the user filter (105-112). -/
def dfF (raws : List RawRow) (rate : ℚ) (ra sa : List String)
    (d0 d1 : Date) : List NRec :=
  filterEngine ra sa d0 d1 (preFilter (normalizeRecs rate (clean raws)))

/-- The sheet row behind the C1 counterexample: a deal of 5 that passes
every filter but whose `Transaction stage` cell is empty. -/
def stageNoneRow : RawRow :=
  ⟨.parsed ⟨2024, 5⟩, .numeric 5, some "A", none, none, some "S"⟩

/-- C1 counterexample: one filtered-in record of 5 with a missing stage
cell.  `groupby("Transaction stage")` drops the row, so the stage group
totals sum to 0 while the KPI total revenue is 5 — sum conservation fails
for the stage grouping dimension. -/
theorem C1_counterexample :
    ((stageView (dfF [stageNoneRow] 1 ["A"] ["S"] ⟨2024, 1⟩ ⟨2026, 366⟩)).map
        Prod.snd).sum ≠
      totalRevenue (dfF [stageNoneRow] 1 ["A"] ["S"] ⟨2024, 1⟩ ⟨2026, 366⟩) := by
  have h1 : dfF [stageNoneRow] 1 ["A"] ["S"] ⟨2024, 1⟩ ⟨2026, 366⟩ =
      [⟨some ⟨2024, 5⟩, 5, some "A", none, none, some "S", 5⟩] := by
    simp [dfF, filterEngine, preFilter, normalizeRecs, normalizeRow, clean,
      cleanRow, coerceDate, coerceSum, isDollar, inYearWindow, keepRow, optIn,
      dateBetween, Date.le, stageNoneRow]
  rw [h1]
  have h2 : ((stageView
      [⟨some ⟨2024, 5⟩, 5, some "A", none, none, some "S", 5⟩]).map
        Prod.snd).sum = 0 := by
    simp [stageView, groupSums, keysOf, stageKey, isort]
  have h3 : totalRevenue
      [(⟨some ⟨2024, 5⟩, 5, some "A", none, none, some "S", 5⟩ : NRec)] = 5 := by
    simp [totalRevenue, sumW]
  rw [h2, h3]
  norm_num

/-- C1 (amended): over every filtered set `df_f`, the per-group `Sum_UZS`
totals sum to the KPI total revenue exactly for the responsible, source
and responsible×source dimensions, and the risk partition is exact
(Debtors total + Normal total = total revenue, a missing stage counting
as Normal); for the stage dimension conservation holds whenever every
filtered record has a non-missing stage, and can fail otherwise because
`groupby` drops rows whose grouping key is missing. -/
theorem C1_sum_conservation (raws : List RawRow) (rate : ℚ)
    (ra sa : List String) (d0 d1 : Date) :
    ((groupSums respKey (dfF raws rate ra sa d0 d1)).map Prod.snd).sum =
      totalRevenue (dfF raws rate ra sa d0 d1) ∧
    ((groupSums sourceKey (dfF raws rate ra sa d0 d1)).map Prod.snd).sum =
      totalRevenue (dfF raws rate ra sa d0 d1) ∧
    ((groupSums respSourceKey (dfF raws rate ra sa d0 d1)).map Prod.snd).sum =
      totalRevenue (dfF raws rate ra sa d0 d1) ∧
    debtorsTotal (dfF raws rate ra sa d0 d1) +
        normalTotal (dfF raws rate ra sa d0 d1) =
      totalRevenue (dfF raws rate ra sa d0 d1) ∧
    ((∀ r ∈ dfF raws rate ra sa d0 d1, r.stage ≠ none) →
      ((stageView (dfF raws rate ra sa d0 d1)).map Prod.snd).sum =
        totalRevenue (dfF raws rate ra sa d0 d1)) := by
  have hkeep : ∀ r ∈ dfF raws rate ra sa d0 d1, keepRow ra sa d0 d1 r = true := by
    intro r hr
    exact (mem_filterEngine.mp hr).2
  refine ⟨?_, ?_, ?_, ?_, ?_⟩
  · refine groupSums_total respKey _ ?_
    intro r hr
    rcases optIn_some (keepRow_parts (hkeep r hr)).1 with ⟨v, hv, _⟩
    unfold respKey
    rw [hv]
    exact Option.some_ne_none v
  · refine groupSums_total sourceKey _ ?_
    intro r hr
    rcases optIn_some (keepRow_parts (hkeep r hr)).2.1 with ⟨s, hs, _⟩
    unfold sourceKey
    rw [hs]
    exact Option.some_ne_none s
  · refine groupSums_total respSourceKey _ ?_
    intro r hr
    rcases optIn_some (keepRow_parts (hkeep r hr)).1 with ⟨v, hv, _⟩
    rcases optIn_some (keepRow_parts (hkeep r hr)).2.1 with ⟨s, hs, _⟩
    unfold respSourceKey
    rw [hv, hs]
    simp
  · exact sumWhere_not_add _ _
  · intro h
    exact groupSums_total stageKey _ (fun r hr => h r hr)

/-- The C1 witness row: like `stageNoneRow` but with stage `Success`. -/
def stagedRow : RawRow :=
  ⟨.parsed ⟨2024, 5⟩, .numeric 5, some "A", some "Success", none, some "S"⟩

theorem C1_sum_conservation_witness :
    ((stageView (dfF [stagedRow] 1 ["A"] ["S"] ⟨2024, 1⟩ ⟨2026, 366⟩)).map
        Prod.snd).sum =
      totalRevenue (dfF [stagedRow] 1 ["A"] ["S"] ⟨2024, 1⟩ ⟨2026, 366⟩) :=
  (C1_sum_conservation [stagedRow] 1 ["A"] ["S"] ⟨2024, 1⟩ ⟨2026, 366⟩).2.2.2.2
    (by
      have h1 : dfF [stagedRow] 1 ["A"] ["S"] ⟨2024, 1⟩ ⟨2026, 366⟩ =
          [⟨some ⟨2024, 5⟩, 5, some "A", some "Success", none, some "S", 5⟩] := by
        simp [dfF, filterEngine, preFilter, normalizeRecs, normalizeRow, clean,
          cleanRow, coerceDate, coerceSum, isDollar, inYearWindow, keepRow,
          optIn, dateBetween, Date.le, stagedRow]
      rw [h1]
      intro r hr
      rcases List.mem_singleton.mp hr with rfl
      simp)
